import Mathlib

/-!
Verification of the cache-manager / bloom-filter subsystem of the
flask-to-fastapi migration guide repository
(`09-todo-list-migration/flask-app/utils/cache.py`,
`09-todo-list-migration/flask-app/utils/bloom_filter.py`, and their
async twins under `fastapi-app/utils/`).

The embedding mirrors the Python source:
* Redis is modelled as a string-keyed store of `(serializedValue, ttlSeconds)`
  pairs plus a separate bit array for the bloom-filter bitmap key
  (`setbit`/`getbit` live in their own key, `"bloom:todo_keys"`).
* `json.dumps` / `json.loads` are modelled on the fragment of JSON the
  cache actually stores: integers, strings and (nested) arrays.
* `random.randint(0, r)` is modelled by an oracle argument `j` together
  with the side condition `j ≤ r` in the theorems.
* `mmh3.hash(item, seed)` (a signed 32-bit hash) is an abstract parameter
  `hash : String → Nat → Int`; Python's `%` on a possibly negative left
  operand and positive right operand is `Int.emod`, which has the same
  (always non-negative) result.
-/

/-- Values handled by the cache layer: the JSON-serializable payloads the
todo app stores (integers, strings, and lists). Python `None` is
represented by `Option PyVal` at the interfaces that can produce it. -/
inductive PyVal where
  | int (n : Int)
  | str (s : String)
  | list (xs : List PyVal)

mutual

/-- `json.dumps` on `PyVal` (Python's default separators produce `", "`). -/
def jsonDumps : PyVal → String
  | .int n => toString n
  | .str s => "\"" ++ s ++ "\""
  | .list xs => "[" ++ jsonDumpsList xs ++ "]"

/-- Comma-separated rendering of a JSON array body. -/
def jsonDumpsList : List PyVal → String
  | [] => ""
  | [v] => jsonDumps v
  | v :: rest => jsonDumps v ++ ", " ++ jsonDumpsList rest

end

/-- Drop leading spaces (whitespace handling of the JSON reader). -/
def skipSp : List Char → List Char
  | ' ' :: rest => skipSp rest
  | cs => cs

/-- Parse the body of a double-quoted JSON string (no escape sequences are
produced by `jsonDumps`, and none are stored by the cache). -/
def parseStrBody : List Char → String → Option (PyVal × List Char)
  | [], _ => none
  | '"' :: rest, acc => some (.str acc, rest)
  | c :: rest, acc => parseStrBody rest (acc.push c)

/-- Parse a JSON integer (optional leading minus, then digits). -/
def parseNum (cs : List Char) : Option (PyVal × List Char) :=
  let neg : Bool := match cs with | '-' :: _ => true | _ => false
  let cs1 := match cs with | '-' :: r => r | _ => cs
  let digits := cs1.takeWhile Char.isDigit
  let rest := cs1.dropWhile Char.isDigit
  if digits.isEmpty then none
  else
    let n : Int := digits.foldl (fun a c => a * 10 + (Int.ofNat (c.toNat - 48))) 0
    some (.int (if neg then -n else n), rest)

mutual

/-- Fuel-indexed recursive-descent reader for the JSON fragment produced by
`jsonDumps` (models `json.loads`; on any other input it fails, which the
cache code turns into "return the raw string"). -/
def parseV : Nat → List Char → Option (PyVal × List Char)
  | 0, _ => none
  | f + 1, cs =>
    match skipSp cs with
    | '"' :: rest => parseStrBody rest ""
    | '[' :: rest =>
      match skipSp rest with
      | ']' :: r2 => some (.list [], r2)
      | r2 => parseItems f r2
    | cs2 => parseNum cs2

/-- Parse one-or-more comma-separated JSON values up to a closing bracket. -/
def parseItems : Nat → List Char → Option (PyVal × List Char)
  | 0, _ => none
  | f + 1, cs =>
    match parseV f cs with
    | none => none
    | some (v, rest) =>
      match skipSp rest with
      | ',' :: r2 =>
        match parseItems f r2 with
        | some (.list vs, r3) => some (.list (v :: vs), r3)
        | _ => none
      | ']' :: r2 => some (.list [v], r2)
      | _ => none

end

/-- `json.loads`, failing (returning `none`, the model of
`json.JSONDecodeError`) on input outside the supported fragment. -/
def jsonLoads (s : String) : Option PyVal :=
  match parseV (2 * s.length + 2) s.data with
  | some (v, rest) => if (skipSp rest).isEmpty then some v else none
  | none => none

example : jsonLoads "[]" = some (.list []) := rfl
example : jsonLoads "[1, 2]" = some (.list [.int 1, .int 2]) := rfl
example : jsonLoads "__NULL__" = none := rfl
example : jsonLoads (jsonDumps (.list [.str "a", .list [.int (-3)]])) =
    some (.list [.str "a", .list [.int (-3)]]) := rfl

/-! ## Bloom filter (`utils/bloom_filter.py`)

`bit_size` / `hash_count` are stored fields; the constructor arithmetic
that fills them from `capacity` / `error_rate` (a float computation) is
modelled separately in the real-number section for claim C8. The filter
operations themselves are exact integer/bit code and are embedded here. -/

/-- The fields of a constructed `BloomFilter` that its operations read
(`self.bit_size`, `self.hash_count`). The Redis bitmap under `self.key`
is passed to each operation as `bits : Nat → Bool`. -/
structure BloomFilter where
  bit_size : Nat
  hash_count : Nat

/-- `BloomFilter._get_offsets`: `mmh3.hash(item, i) % self.bit_size` for
`i in range(self.hash_count)`. `mmh3.hash` is signed, and Python's `%`
by a positive modulus is `Int.emod` (always non-negative there). -/
def BloomFilter.get_offsets (bf : BloomFilter) (hash : String → Nat → Int)
    (item : String) : List Nat :=
  (List.range bf.hash_count).map fun i => ((hash item i) % (bf.bit_size : Int)).toNat

/-- `BloomFilter.add`: pipeline of `setbit(self.key, offset, 1)` over the
offsets of `item`. -/
def BloomFilter.add (bf : BloomFilter) (hash : String → Nat → Int)
    (bits : Nat → Bool) (item : String) : Nat → Bool :=
  (bf.get_offsets hash item).foldl (fun b off => Function.update b off true) bits

/-- `BloomFilter.exists`: pipeline of `getbit` over the offsets of `item`,
then `all(results)`. (Named `mem` here because `exists` is not usable as a
Lean identifier.) -/
def BloomFilter.mem (bf : BloomFilter) (hash : String → Nat → Int)
    (bits : Nat → Bool) (item : String) : Bool :=
  (bf.get_offsets hash item).all fun off => bits off

/-! ## Cache manager (`utils/cache.py`), sequential embedding

State visible to one `CacheManager` call: the Redis string store (value
and the TTL it was stored with), the bloom-filter bitmap, and which
per-key locks are held.  TTLs are recorded but time does not pass inside
or between the modelled calls, matching the claims' "within the TTL"
scenarios. -/

/-- Redis-backed state as seen by `CacheManager`. -/
structure CMState where
  store : String → Option (String × Nat)
  bits : Nat → Bool
  locks : String → Bool

/-- `CacheManager.default_ttl` (3600 s). -/
def default_ttl : Nat := 3600

/-- `CacheManager.null_ttl` (300 s, the tombstone TTL). -/
def null_ttl : Nat := 300

/-- `CacheManager._get_random_ttl`: `base_ttl + random.randint(0, random_range)`;
the sampled value `j` (with `0 ≤ j ≤ random_range`) is an oracle argument. -/
def get_random_ttl (base_ttl : Nat) (j : Nat) : Nat := base_ttl + j

/-- Serialization step of `CacheManager.set`: a `str` value is stored raw,
anything else goes through `json.dumps`. -/
def serialize : PyVal → String
  | .str s => s
  | v => jsonDumps v

namespace CacheManager

/-- `CacheManager.get`: `None` for a missing key, `None` for the
`"__NULL__"` tombstone, otherwise `json.loads` with a fallback to the raw
string on `JSONDecodeError`. -/
def get (st : CMState) (key : String) : Option PyVal :=
  match st.store key with
  | none => none
  | some (raw, _) =>
    if raw = "__NULL__" then none
    else
      match jsonLoads raw with
      | some v => some v
      | none => some (.str raw)

/-- `CacheManager.set`: default the TTL, add the jitter `j` when
`use_random_ttl`, serialize, `setex`. -/
def set (st : CMState) (key : String) (value : PyVal) (ttl : Option Nat)
    (use_random_ttl : Bool) (j : Nat) : CMState :=
  let t0 := ttl.getD default_ttl
  let t1 := if use_random_ttl then get_random_ttl t0 j else t0
  { st with store := Function.update st.store key (some (serialize value, t1)) }

/-- `CacheManager.set_null`: `setex(key, ttl or null_ttl, "__NULL__")`. -/
def set_null (st : CMState) (key : String) (ttl : Option Nat) : CMState :=
  { st with store := Function.update st.store key (some ("__NULL__", ttl.getD null_ttl)) }

/-- `CacheManager.delete`. -/
def delete (st : CMState) (key : String) : CMState :=
  { st with store := Function.update st.store key none }

end CacheManager

example :
    CacheManager.get
      (CacheManager.set ⟨fun _ => none, fun _ => false, fun _ => false⟩ "k" (.list []) none true 7)
      "k" = some (.list []) := rfl

/-- Outcome of one `CacheManager.get_or_set` call: the returned value (or
the propagated exception), the Redis state after the call, and how many
times the caller-supplied `fetch_func` was invoked during the call. -/
structure GosResult (E : Type) where
  result : Except E (Option PyVal)
  state : CMState
  fetchCalls : Nat

/-- `CacheManager.get_or_set` (sync variant, `flask-app/utils/cache.py`),
executed by a single caller, so the `threading.Lock` acquisition succeeds
immediately; the `locks` component records the `with lock:` scope, which
releases on every exit path, exceptions included.  `fetch_func` is modelled
as `Except`-valued (`Except.error` = the callback raised).  `writeErr`
models whether the `setex` performed by `self.set(key, value, ttl=ttl)` in
the value branch raises (`some e`) or succeeds (`none`); in the source such
an exception is caught by the surrounding `except Exception as e: raise e`
and re-raised.  `j` is the jitter oracle consumed by `self.set`. -/
def CacheManager.get_or_set {E : Type} (bf : BloomFilter) (hash : String → Nat → Int)
    (st : CMState) (key : String) (fetch_func : Unit → Except E (Option PyVal))
    (ttl : Option Nat) (check_bloom : Bool) (j : Nat) (writeErr : Option E) :
    GosResult E :=
  -- 1. try the cache first
  match CacheManager.get st key with
  | some v => ⟨.ok (some v), st, 0⟩
  | none =>
    -- 2. bloom-filter check (cache-penetration defense)
    if check_bloom && !(bf.mem hash st.bits key) then
      ⟨.ok none, CacheManager.set_null st key none, 0⟩
    else
      -- 3. `with lock:` — acquire the per-key mutex
      let stL := { st with locks := Function.update st.locks key true }
      let unlock := fun (s : CMState) => { s with locks := Function.update s.locks key false }
      -- double check after taking the lock
      match CacheManager.get stL key with
      | some v => ⟨.ok (some v), unlock stL, 0⟩
      | none =>
        -- 4. fetch from the data source
        match fetch_func () with
        | .error e => ⟨.error e, unlock stL, 1⟩
        | .ok none =>
          -- data absent: null-cache it and add the key to the bloom filter
          let st1 := CacheManager.set_null stL key none
          let st2 := if check_bloom then { st1 with bits := bf.add hash st1.bits key } else st1
          ⟨.ok none, unlock st2, 1⟩
        | .ok (some v) =>
          match writeErr with
          | some e => ⟨.error e, unlock stL, 1⟩
          | none =>
            -- data present (empty list included): cache it, add to the filter
            let st1 := CacheManager.set stL key v ttl true j
            let st2 := if check_bloom then { st1 with bits := bf.add hash st1.bits key } else st1
            ⟨.ok (some v), unlock st2, 1⟩

/-- An empty cache/bloom/lock state, for concrete scenarios. -/
def emptyCM : CMState := ⟨fun _ => none, fun _ => false, fun _ => false⟩



/-! ## Bloom-filter lemmas -/

/-- A fold of `setbit …, 1` never clears a bit. -/
theorem foldl_setbit_mono (os : List Nat) (bits : Nat → Bool) (o : Nat) (hb : bits o = true) :
    (os.foldl (fun b off => Function.update b off true) bits) o = true := by
  induction os generalizing bits with
  | nil => exact hb
  | cons a rest ih =>
    apply ih
    simp only [Function.update_apply]
    split <;> simp [hb]

/-- A fold of `setbit …, 1` sets every offset in the list. -/
theorem foldl_setbit_mem (os : List Nat) (bits : Nat → Bool) (o : Nat) (ho : o ∈ os) :
    (os.foldl (fun b off => Function.update b off true) bits) o = true := by
  induction os generalizing bits with
  | nil => cases ho
  | cons a rest ih =>
    rcases List.mem_cons.mp ho with h | h
    · subst h
      exact foldl_setbit_mono rest _ o (by simp [Function.update_apply])
    · exact ih _ h

/-- `BloomFilter.add` never clears a bit. -/
theorem BloomFilter.add_mono (bf : BloomFilter) (hash : String → Nat → Int)
    (bits : Nat → Bool) (item : String) (o : Nat) (hb : bits o = true) :
    bf.add hash bits item o = true :=
  foldl_setbit_mono _ bits o hb

/-- Right after `add item`, every offset probed by `exists item` is set. -/
theorem BloomFilter.mem_add_self (bf : BloomFilter) (hash : String → Nat → Int)
    (bits : Nat → Bool) (item : String) :
    bf.mem hash (bf.add hash bits item) item = true := by
  rw [BloomFilter.mem, List.all_eq_true]
  intro o ho
  simpa using foldl_setbit_mem _ bits o ho

/-- Claim C7: no false negatives — for every string item added to the
Membership Filter via `add(item)`, a subsequent `exists(item)` returns
true, even after any list of further `add` calls: `add` and `exists`
compute the same `k` deterministic offsets from `item`, `add` sets every
one of those bits to 1, and later `add`s only ever set bits. -/
theorem c7_no_false_negatives (bf : BloomFilter) (hash : String → Nat → Int)
    (bits : Nat → Bool) (item : String) (laterAdds : List String) :
    bf.mem hash (laterAdds.foldl (fun b it => bf.add hash b it) (bf.add hash bits item))
      item = true := by
  have base := bf.mem_add_self hash bits item
  generalize bf.add hash bits item = b0 at base ⊢
  induction laterAdds generalizing b0 with
  | nil => exact base
  | cons it rest ih =>
    apply ih
    rw [BloomFilter.mem, List.all_eq_true] at base ⊢
    intro o ho
    simpa using bf.add_mono hash b0 it o (by simpa using base o ho)

/-! ## Claim theorems about `CacheManager` -/

/-- Claim C9: jitter bound — a `set` call with jitter enabled stores the
entry with an integer expiry in `[base_ttl, base_ttl + 300]`; with the
default base TTL (3600) the expiry lies in `[3600, 3900]`.  The sampled
jitter `j` is `random.randint(0, 300)`, so `j ≤ 300`. -/
theorem c9_jitter_bound (st st' : CMState) (key : String) (v : PyVal) (tl j : Nat)
    (hj : j ≤ 300) :
    (∃ e, (CacheManager.set st key v (some tl) true j).store key = some (serialize v, e) ∧
        tl ≤ e ∧ e ≤ tl + 300) ∧
    (∃ e, (CacheManager.set st' key v none true j).store key = some (serialize v, e) ∧
        3600 ≤ e ∧ e ≤ 3900) := by
  constructor
  · exact ⟨tl + j, by simp [CacheManager.set, get_random_ttl], by omega, by omega⟩
  · exact ⟨3600 + j, by simp [CacheManager.set, get_random_ttl, default_ttl], by omega, by omega⟩

/-- Witness for C9 at `j = 123`. -/
theorem c9_jitter_bound_witness :
    (123 : Nat) ≤ 300 ∧
    ((∃ e, (CacheManager.set emptyCM "k" (.int 5) (some 60) true 123).store "k"
          = some (serialize (.int 5), e) ∧ 60 ≤ e ∧ e ≤ 60 + 300) ∧
      (∃ e, (CacheManager.set emptyCM "k" (.int 5) none true 123).store "k"
          = some (serialize (.int 5), e) ∧ 3600 ≤ e ∧ e ≤ 3900)) :=
  ⟨by decide, c9_jitter_bound emptyCM emptyCM "k" (.int 5) 60 123 (by decide)⟩

/-- Claim C10 (implicit): `CacheManager.get` conflates the tombstone with
absence — it returns `None` when the backend holds no record for the key
and when it holds the `"__NULL__"` marker, and `set(key, "__NULL__")`
followed by `get(key)` yields `None` rather than the stored string (the
string is stored raw and the tombstone check fires before JSON decoding). -/
theorem c10_get_conflates_tombstone (st st2 st3 : CMState) (key : String)
    (tl tl' : Option Nat) (j : Nat) (hmiss : st.store key = none) :
    CacheManager.get st key = none ∧
    CacheManager.get (CacheManager.set_null st2 key tl) key = none ∧
    CacheManager.get (CacheManager.set st3 key (.str "__NULL__") tl' true j) key = none := by
  refine ⟨?_, ?_, ?_⟩
  · simp [CacheManager.get, hmiss]
  · simp [CacheManager.get, CacheManager.set_null]
  · simp [CacheManager.get, CacheManager.set, serialize]

/-- Witness for C10 on the empty state. -/
theorem c10_get_conflates_tombstone_witness :
    CacheManager.get emptyCM "todo:7" = none ∧
    CacheManager.get (CacheManager.set_null emptyCM "todo:7" none) "todo:7" = none ∧
    CacheManager.get (CacheManager.set emptyCM "todo:7" (.str "__NULL__") none true 0) "todo:7"
      = none :=
  c10_get_conflates_tombstone emptyCM emptyCM emptyCM "todo:7" none none 0 rfl

/-- Claim C2: penetration defense — when the backend lookup misses,
`check_bloom` is true and the bloom filter reports the key as never
recorded, `get_or_set` writes the `"__NULL__"` tombstone with the short
`null_ttl`, returns `None`, and never invokes the fetch callback. -/
theorem c2_penetration_defense {E : Type} (bf : BloomFilter) (hash : String → Nat → Int)
    (st : CMState) (key : String) (fetch_func : Unit → Except E (Option PyVal))
    (ttl : Option Nat) (j : Nat) (writeErr : Option E)
    (hmiss : st.store key = none)
    (hbloom : bf.mem hash st.bits key = false) :
    CacheManager.get_or_set bf hash st key fetch_func ttl true j writeErr
      = ⟨.ok none, CacheManager.set_null st key none, 0⟩ ∧
    (CacheManager.set_null st key none).store key = some ("__NULL__", null_ttl) := by
  constructor
  · simp [CacheManager.get_or_set, CacheManager.get, hmiss, hbloom]
  · simp [CacheManager.set_null]


/-- Witness for C2: a concrete filter/hash whose bitmap is empty, so the
membership test is negative. -/
theorem c2_penetration_defense_witness :
    emptyCM.store "todo:404" = none ∧
    BloomFilter.mem ⟨8, 2⟩ (fun s i => ((s.length + i : Nat) : Int)) emptyCM.bits "todo:404"
      = false ∧
    (CacheManager.get_or_set ⟨8, 2⟩ (fun s i => ((s.length + i : Nat) : Int)) emptyCM "todo:404"
        (fun _ => (.ok (some (.int 1)) : Except String (Option PyVal))) none true 0 none
      = ⟨.ok none, CacheManager.set_null emptyCM "todo:404" none, 0⟩ ∧
      (CacheManager.set_null emptyCM "todo:404" none).store "todo:404"
        = some ("__NULL__", null_ttl)) :=
  ⟨rfl, rfl,
    c2_penetration_defense ⟨8, 2⟩ (fun s i => ((s.length + i : Nat) : Int)) emptyCM "todo:404"
      (fun _ => .ok (some (.int 1))) none 0 none rfl rfl⟩

/-! ## Claim C1: the tombstone short-circuit, at a concrete failing input

Scenario: the key `"todo:1"` was once recorded in the bloom filter (it
had data that has since been deleted from the database), the backend no
longer holds it, and the database row is gone, so `fetch` returns `None`.
The first `get_or_set` invokes fetch and writes the tombstone; the claim
says the second call must return `None` WITHOUT invoking fetch, but the
source's `CacheManager.get` maps the `"__NULL__"` tombstone to `None`, so
both the fast path and the post-lock double check treat the tombstone as
a miss and the second call invokes fetch again. -/

/-- Concrete bloom filter for the C1 scenario. -/
def tombBF : BloomFilter := ⟨8, 2⟩

/-- Concrete deterministic stand-in for `mmh3.hash` in the C1 scenario. -/
def tombHash : String → Nat → Int := fun s i => ((s.length + i : Nat) : Int)

/-- Initial state for the C1 scenario: backend empty, `"todo:1"` recorded
in the bloom filter, no locks held. -/
def tombState : CMState :=
  ⟨fun _ => none, BloomFilter.add tombBF tombHash (fun _ => false) "todo:1", fun _ => false⟩

/-- First `get_or_set("todo:1", fetch ≡ None)` of the C1 scenario. -/
def tombCall1 : GosResult String :=
  CacheManager.get_or_set tombBF tombHash tombState "todo:1" (fun _ => .ok none) none true 0 none

/-- Second `get_or_set("todo:1", fetch ≡ None)`, within the tombstone TTL. -/
def tombCall2 : GosResult String :=
  CacheManager.get_or_set tombBF tombHash tombCall1.state "todo:1" (fun _ => .ok none) none true
    0 none

/-- Claim C1 (code-bug exhibit): the first call invokes fetch, returns
`None` and writes the `"__NULL__"` tombstone with the short TTL, yet the
second call for the same key within the tombstone TTL invokes fetch AGAIN
(`fetchCalls = 1`, where the claim requires 0): the tombstone short-circuit
promised by the spec (step 2 of the protocol) is not implemented, because
`CacheManager.get` returns `None` for the tombstone marker. -/
theorem c1_tombstone_shortcircuit_violated :
    tombCall1.fetchCalls = 1 ∧ tombCall1.result = .ok none ∧
    tombCall1.state.store "todo:1" = some ("__NULL__", null_ttl) ∧
    tombCall2.fetchCalls = 1 ∧ tombCall2.result = .ok none :=
  ⟨rfl, rfl, rfl, rfl, rfl⟩

/-- Claim C4: empty-result distinction — with `check_bloom = false` and a
fetch returning the empty list, `get_or_set` stores the serialized empty
list `"[]"` (not a tombstone) with a jittered TTL and returns it; the next
`get_or_set` for that key returns the empty list from the cache without
invoking its fetch callback (whatever that callback is). -/
theorem c4_empty_result_distinction {E : Type} (bf : BloomFilter) (hash : String → Nat → Int)
    (st : CMState) (key : String) (ttl ttl2 : Option Nat) (j j2 : Nat)
    (fetch2 : Unit → Except E (Option PyVal)) (writeErr2 : Option E)
    (hmiss : st.store key = none) :
    (CacheManager.get_or_set bf hash st key
        (fun _ => (.ok (some (.list [])) : Except E (Option PyVal))) ttl false j none).result
      = .ok (some (.list [])) ∧
    (CacheManager.get_or_set bf hash st key
        (fun _ => (.ok (some (.list [])) : Except E (Option PyVal))) ttl false j
        none).state.store key = some ("[]", ttl.getD default_ttl + j) ∧
    (CacheManager.get_or_set bf hash
        (CacheManager.get_or_set bf hash st key
          (fun _ => (.ok (some (.list [])) : Except E (Option PyVal))) ttl false j none).state
        key fetch2 ttl2 false j2 writeErr2)
      = ⟨.ok (some (.list [])),
          (CacheManager.get_or_set bf hash st key
            (fun _ => (.ok (some (.list [])) : Except E (Option PyVal))) ttl false j
            none).state, 0⟩ := by
  have h1 : CacheManager.get_or_set bf hash st key
      (fun _ => (.ok (some (.list [])) : Except E (Option PyVal))) ttl false j none
      = ⟨.ok (some (.list [])),
        { st with
          store := Function.update st.store key (some ("[]", ttl.getD default_ttl + j)),
          locks := Function.update (Function.update st.locks key true) key false }, 1⟩ := by
    simp [CacheManager.get_or_set, CacheManager.get, hmiss, CacheManager.set, serialize,
      jsonDumps, jsonDumpsList, get_random_ttl]
  refine ⟨by rw [h1], by rw [h1]; simp, ?_⟩
  rw [h1]
  simp [CacheManager.get_or_set, CacheManager.get, jsonLoads]
  rfl

/-- Witness for C4 at a concrete empty state and key. -/
theorem c4_empty_result_distinction_witness :
    emptyCM.store "todos:user:7" = none ∧
    ((CacheManager.get_or_set ⟨8, 2⟩ (fun s i => ((s.length + i : Nat) : Int)) emptyCM
        "todos:user:7" (fun _ => (.ok (some (.list [])) : Except String (Option PyVal))) none
        false 11 none).result = .ok (some (.list [])) ∧
      (CacheManager.get_or_set ⟨8, 2⟩ (fun s i => ((s.length + i : Nat) : Int)) emptyCM
        "todos:user:7" (fun _ => (.ok (some (.list [])) : Except String (Option PyVal))) none
        false 11 none).state.store "todos:user:7"
        = some ("[]", (none : Option Nat).getD default_ttl + 11) ∧
      (CacheManager.get_or_set ⟨8, 2⟩ (fun s i => ((s.length + i : Nat) : Int))
          (CacheManager.get_or_set ⟨8, 2⟩ (fun s i => ((s.length + i : Nat) : Int)) emptyCM
            "todos:user:7" (fun _ => (.ok (some (.list [])) : Except String (Option PyVal))) none
            false 11 none).state
          "todos:user:7" (fun _ => (.ok none : Except String (Option PyVal))) none false 4 none)
        = ⟨.ok (some (.list [])),
            (CacheManager.get_or_set ⟨8, 2⟩ (fun s i => ((s.length + i : Nat) : Int)) emptyCM
              "todos:user:7" (fun _ => (.ok (some (.list [])) : Except String (Option PyVal)))
              none false 11 none).state, 0⟩) :=
  ⟨rfl,
    c4_empty_result_distinction ⟨8, 2⟩ (fun s i => ((s.length + i : Nat) : Int)) emptyCM
      "todos:user:7" none none 11 4 (fun _ => .ok none) none rfl⟩

/-- Claim C5: fetch-failure atomicity — when the fetch callback raises,
`get_or_set` propagates that exception unchanged, releases the per-key
lock (the `with lock:` scope), and writes neither a value entry nor a
tombstone: the whole backend store and the bloom bitmap are untouched.
The hypothesis `hpath` states that the call reaches the fetch step (the
bloom check is skipped or positive). -/
theorem c5_fetch_failure_atomicity {E : Type} (bf : BloomFilter) (hash : String → Nat → Int)
    (st : CMState) (key : String) (ttl : Option Nat) (check_bloom : Bool) (j : Nat) (e : E)
    (writeErr : Option E)
    (hmiss : CacheManager.get st key = none)
    (hpath : check_bloom = false ∨ bf.mem hash st.bits key = true) :
    (CacheManager.get_or_set bf hash st key (fun _ => .error e) ttl check_bloom j
        writeErr).result = .error e ∧
    (CacheManager.get_or_set bf hash st key (fun _ => .error e) ttl check_bloom j
        writeErr).state.store = st.store ∧
    (CacheManager.get_or_set bf hash st key (fun _ => .error e) ttl check_bloom j
        writeErr).state.bits = st.bits ∧
    (CacheManager.get_or_set bf hash st key (fun _ => .error e) ttl check_bloom j
        writeErr).state.locks key = false := by
  have hget : CacheManager.get { st with locks := Function.update st.locks key true } key
      = none := hmiss
  have hcond : (check_bloom && !(bf.mem hash st.bits key)) = false := by
    rcases hpath with h | h <;> simp [h]
  refine ⟨?_, ?_, ?_, ?_⟩ <;>
    simp [CacheManager.get_or_set, hmiss, hget, hcond, Function.update_same]

/-- Witness for C5: a raising fetch against an empty cache with the bloom
check disabled. -/
theorem c5_fetch_failure_atomicity_witness :
    CacheManager.get emptyCM "todo:3" = none ∧
    (false = false ∨ BloomFilter.mem ⟨8, 2⟩ (fun s i => ((s.length + i : Nat) : Int))
      emptyCM.bits "todo:3" = true) ∧
    ((CacheManager.get_or_set ⟨8, 2⟩ (fun s i => ((s.length + i : Nat) : Int)) emptyCM "todo:3"
        (fun _ => .error "DatabaseError") none false 0 none).result = .error "DatabaseError" ∧
      (CacheManager.get_or_set ⟨8, 2⟩ (fun s i => ((s.length + i : Nat) : Int)) emptyCM "todo:3"
        (fun _ => .error "DatabaseError") none false 0 none).state.store = emptyCM.store ∧
      (CacheManager.get_or_set ⟨8, 2⟩ (fun s i => ((s.length + i : Nat) : Int)) emptyCM "todo:3"
        (fun _ => .error "DatabaseError") none false 0 none).state.bits = emptyCM.bits ∧
      (CacheManager.get_or_set ⟨8, 2⟩ (fun s i => ((s.length + i : Nat) : Int)) emptyCM "todo:3"
        (fun _ => .error "DatabaseError") none false 0 none).state.locks "todo:3" = false) :=
  ⟨rfl, Or.inl rfl,
    c5_fetch_failure_atomicity ⟨8, 2⟩ (fun s i => ((s.length + i : Nat) : Int)) emptyCM "todo:3"
      none false 0 "DatabaseError" none rfl (Or.inl rfl)⟩

/-- Claim C6 (counterexample): fetch returns a value but the backend write
of step 8 raises; `get_or_set` then propagates the write error instead of
returning the freshly fetched value — in the sync source the exception is
caught by `except Exception as e: raise e`, in the async source there is
no handler at all, so in both variants the overall call fails. -/
theorem c6_best_effort_counterexample :
    (CacheManager.get_or_set ⟨8, 2⟩ (fun s i => ((s.length + i : Nat) : Int)) emptyCM "todo:9"
        (fun _ => (.ok (some (.int 1)) : Except String (Option PyVal))) none false 0
        (some "ConnectionError")).result = .error "ConnectionError" ∧
    (CacheManager.get_or_set ⟨8, 2⟩ (fun s i => ((s.length + i : Nat) : Int)) emptyCM "todo:9"
        (fun _ => (.ok (some (.int 1)) : Except String (Option PyVal))) none false 0
        (some "ConnectionError")).result ≠ .ok (some (.int 1)) := by
  constructor
  · rfl
  · intro h
    rw [show (CacheManager.get_or_set ⟨8, 2⟩ (fun s i => ((s.length + i : Nat) : Int)) emptyCM
        "todo:9" (fun _ => (.ok (some (.int 1)) : Except String (Option PyVal))) none false 0
        (some "ConnectionError")).result = .error "ConnectionError" from rfl] at h
    exact Except.noConfusion h

/-- Claim C6 (amended): when the step-8 backend write raises, `get_or_set`
propagates that exception to the caller (the fetched value is NOT
returned), and the store is left unchanged; only a write that reports
failure without raising (`setex` returning false) would leave the value
returned, because the source ignores `set`'s return value. -/
theorem c6_write_failure_propagates {E : Type} (bf : BloomFilter) (hash : String → Nat → Int)
    (st : CMState) (key : String) (v : PyVal) (ttl : Option Nat) (check_bloom : Bool) (j : Nat)
    (e : E)
    (hmiss : CacheManager.get st key = none)
    (hpath : check_bloom = false ∨ bf.mem hash st.bits key = true) :
    (CacheManager.get_or_set bf hash st key (fun _ => .ok (some v)) ttl check_bloom j
        (some e)).result = .error e ∧
    (CacheManager.get_or_set bf hash st key (fun _ => .ok (some v)) ttl check_bloom j
        (some e)).state.store = st.store := by
  have hget : CacheManager.get { st with locks := Function.update st.locks key true } key
      = none := hmiss
  have hcond : (check_bloom && !(bf.mem hash st.bits key)) = false := by
    rcases hpath with h | h <;> simp [h]
  constructor <;> simp [CacheManager.get_or_set, hmiss, hget, hcond]

/-- Witness for the amended C6 theorem. -/
theorem c6_write_failure_propagates_witness :
    CacheManager.get emptyCM "todo:9" = none ∧
    (false = false ∨ BloomFilter.mem ⟨8, 2⟩ (fun s i => ((s.length + i : Nat) : Int))
      emptyCM.bits "todo:9" = true) ∧
    ((CacheManager.get_or_set ⟨8, 2⟩ (fun s i => ((s.length + i : Nat) : Int)) emptyCM "todo:9"
        (fun _ => (.ok (some (.int 2)) : Except String (Option PyVal))) none false 0
        (some "Timeout")).result = .error "Timeout" ∧
      (CacheManager.get_or_set ⟨8, 2⟩ (fun s i => ((s.length + i : Nat) : Int)) emptyCM "todo:9"
        (fun _ => (.ok (some (.int 2)) : Except String (Option PyVal))) none false 0
        (some "Timeout")).state.store = emptyCM.store) :=
  ⟨rfl, Or.inl rfl,
    c6_write_failure_propagates ⟨8, 2⟩ (fun s i => ((s.length + i : Nat) : Int)) emptyCM
      "todo:9" (.int 2) none false 0 "Timeout" rfl (Or.inl rfl)⟩

/-! ## Claim C3: single-flight, interleaving model

The thread program below is `CacheManager.get_or_set` specialized to one
key with `check_bloom = false` (the configuration of the spec's N-callers
test, in which the fetch step is reachable), run by `n` threads over the
shared Redis cell for that key and the shared per-key `threading.Lock`.
Each transition performs exactly one access to the shared state (one
Redis read/write, one lock acquire/release, or the fetch call, whose
invocations are counted by `cnt`).  Serialization and TTLs are elided:
within one miss episode no entry expires, and the cell holds either the
tombstone or a fetched value.  `getVal` is `CacheManager.get` on the
cell: the tombstone reads back as `None`, exactly as in the source. -/

/-- What the Redis key can hold for the single-flight model: the
`"__NULL__"` tombstone or a (serialized) fetched value. -/
inductive Cell where
  | tomb
  | val (v : Nat)
deriving DecidableEq

/-- `CacheManager.get` on the modelled cell: absence and the tombstone
both read back as `None`. -/
def getVal : Option Cell → Option Nat
  | some (.val v) => some v
  | _ => none

/-- Program counter of one thread running `get_or_set` on the key:
`s0` = about to do the fast-path read; `s1` = blocked on the per-key
lock; `s2` = holding the lock, about to double-check; `s3` = holding the
lock, about to call `fetch_func`; `s4v w` = holding the lock, about to
`set` the fetched value `w`; `s4n` = holding the lock, about to
`set_null`; `srel r` = holding the lock, about to release and return
`r`; `done r` = returned `r`. -/
inductive TState where
  | s0
  | s1
  | s2
  | s3
  | s4v (v : Nat)
  | s4n
  | srel (r : Option Nat)
  | done (r : Option Nat)
deriving DecidableEq

/-- Shared state plus all thread states for `n` concurrent callers:
the Redis cell for the key, the holder of the per-key lock, the number
of `fetch_func` invocations so far, and each thread's program counter. -/
structure Sys (n : Nat) where
  cell : Option Cell
  owner : Option (Fin n)
  cnt : Nat
  ts : Fin n → TState

/-- One interleaving step: thread `i` performs its next shared-state
access (a no-op when `i` is blocked on the lock or already done).
`fetchRes` is the value the data source returns to every fetch. -/
def stepOne {n : Nat} (fetchRes : Option Nat) (σ : Sys n) (i : Fin n) : Sys n :=
  match σ.ts i with
  | .s0 =>
    match getVal σ.cell with
    | some w => { σ with ts := Function.update σ.ts i (.done (some w)) }
    | none => { σ with ts := Function.update σ.ts i .s1 }
  | .s1 =>
    match σ.owner with
    | none => { σ with owner := some i, ts := Function.update σ.ts i .s2 }
    | some _ => σ
  | .s2 =>
    match getVal σ.cell with
    | some w => { σ with ts := Function.update σ.ts i (.srel (some w)) }
    | none => { σ with ts := Function.update σ.ts i .s3 }
  | .s3 =>
    { σ with cnt := σ.cnt + 1,
             ts := Function.update σ.ts i
               (match fetchRes with | some w => .s4v w | none => .s4n) }
  | .s4v w => { σ with cell := some (.val w), ts := Function.update σ.ts i (.srel (some w)) }
  | .s4n => { σ with cell := some .tomb, ts := Function.update σ.ts i (.srel none) }
  | .srel r => { σ with owner := none, ts := Function.update σ.ts i (.done r) }
  | .done _ => σ

/-- Run a whole schedule (list of thread choices). -/
def runSched {n : Nat} (fetchRes : Option Nat) (σ : Sys n) (sched : List (Fin n)) : Sys n :=
  sched.foldl (stepOne fetchRes) σ

/-- All `n` threads about to start `get_or_set` on the same missing key. -/
def initSys (n : Nat) : Sys n := ⟨none, none, 0, fun _ => .s0⟩

/-- Thread states that hold the per-key lock. -/
def holdsLock : TState → Prop
  | .s0 => False
  | .s1 => False
  | .done _ => False
  | _ => True

/-- Thread states in the window between fetch and the cache write. -/
def inS4 : TState → Bool
  | .s4v _ => true
  | _ => false

/-- Whether a thread has finished its call. -/
def isDone : TState → Bool
  | .done _ => true
  | _ => false

/-- Per-thread invariant (for a data source that returns the value `v`):
what each program counter implies about the shared cell and about the
thread's pending result. -/
def TSOk (v : Nat) (cell : Option Cell) : TState → Prop
  | .s3 => cell = none
  | .s4v w => cell = none ∧ w = v
  | .s4n => False
  | .srel r => r = some v ∧ cell = some (.val v)
  | .done r => r = some v ∧ cell = some (.val v)
  | _ => True

/-- Global invariant of the single-flight system when every fetch returns
the value `v`: the lock is mutually exclusive, the cell only ever goes
from empty to the fetched value, each thread state is consistent with the
cell, and the fetch count is 0 before the first lock holder fetches and 1
from then on. -/
structure SFInv (v : Nat) {n : Nat} (σ : Sys n) : Prop where
  mutex : ∀ i, holdsLock (σ.ts i) ↔ σ.owner = some i
  cellOk : σ.cell = none ∨ σ.cell = some (.val v)
  tsOk : ∀ i, TSOk v σ.cell (σ.ts i)
  cntEq : σ.cnt = if σ.cell.isSome = true ∨ ∃ i, inS4 (σ.ts i) = true then 1 else 0

/-- Reading the cell as `some w` under the invariant pins the cell and `w`. -/
theorem getVal_eq_some {v w : Nat} {cell : Option Cell}
    (hc : cell = none ∨ cell = some (.val v)) (h : getVal cell = some w) :
    cell = some (.val v) ∧ w = v := by
  rcases hc with rfl | rfl
  · simp [getVal] at h
  · simp [getVal] at h
    exact ⟨rfl, h.symm⟩

/-- Reading the cell as `None` under the invariant means it is empty. -/
theorem getVal_eq_none {v : Nat} {cell : Option Cell}
    (hc : cell = none ∨ cell = some (.val v)) (h : getVal cell = none) :
    cell = none := by
  rcases hc with rfl | rfl
  · rfl
  · simp [getVal] at h

/-- Two lock holders must be the same thread. -/
theorem lock_unique {n : Nat} {σ : Sys n} (hm : ∀ j, holdsLock (σ.ts j) ↔ σ.owner = some j)
    {i j : Fin n} (hi : holdsLock (σ.ts i)) (hj : holdsLock (σ.ts j)) : i = j := by
  have h1 := (hm i).mp hi
  have h2 := (hm j).mp hj
  rw [h1] at h2
  exact Option.some.inj h2

/-- Updating a thread to a state with the same lock-holding status keeps
the mutual-exclusion property. -/
theorem mutex_update {n : Nat} {ts : Fin n → TState} {owner : Option (Fin n)} (i : Fin n)
    (t : TState) (hm : ∀ j, holdsLock (ts j) ↔ owner = some j)
    (hsame : holdsLock t ↔ holdsLock (ts i)) :
    ∀ j, holdsLock (Function.update ts i t j) ↔ owner = some j := by
  intro j
  by_cases hji : j = i
  · subst hji
    rw [Function.update_same, hsame]
    exact hm j
  · rw [Function.update_noteq hji]
    exact hm j

/-- Updating one thread to a state that satisfies the per-thread invariant
keeps it for every thread (same cell). -/
theorem tsOk_update {n : Nat} {v : Nat} {cell : Option Cell} {ts : Fin n → TState} (i : Fin n)
    (t : TState) (ht : ∀ j, TSOk v cell (ts j)) (hnew : TSOk v cell t) :
    ∀ j, TSOk v cell (Function.update ts i t j) := by
  intro j
  by_cases hji : j = i
  · subst hji
    rw [Function.update_same]
    exact hnew
  · rw [Function.update_noteq hji]
    exact ht j

/-- An update that neither creates nor destroys an `s4` state does not
change whether some thread is in `s4`. -/
theorem exists_inS4_update {n : Nat} (ts : Fin n → TState) (i : Fin n) (t : TState)
    (hnew : inS4 t = false) (hold : inS4 (ts i) = false) :
    (∃ j, inS4 (Function.update ts i t j) = true) ↔ (∃ j, inS4 (ts j) = true) := by
  constructor
  · rintro ⟨j, hj⟩
    by_cases hji : j = i
    · subst hji
      rw [Function.update_same, hnew] at hj
      cases hj
    · rw [Function.update_noteq hji] at hj
      exact ⟨j, hj⟩
  · rintro ⟨j, hj⟩
    by_cases hji : j = i
    · subst hji
      rw [hold] at hj
      cases hj
    · exact ⟨j, by rwa [Function.update_noteq hji]⟩

/-- `inS4` characterization. -/
theorem inS4_eq_true {t : TState} (h : inS4 t = true) : ∃ w, t = .s4v w := by
  cases t <;> first
    | exact ⟨_, rfl⟩
    | simp [inS4] at h

/-- Congruence for the fetch-count bookkeeping. -/
theorem cnt_cond_eq {c1 c2 : Prop} [Decidable c1] [Decidable c2] (h : c1 ↔ c2) :
    (if c1 then (1 : Nat) else 0) = if c2 then 1 else 0 :=
  if_congr h rfl rfl

/-- One interleaving step preserves the single-flight invariant when every
fetch returns the value `v`. -/
theorem sfinv_step {n : Nat} (v : Nat) (σ : Sys n) (i : Fin n) (h : SFInv v σ) :
    SFInv v (stepOne (some v) σ i) := by
  obtain ⟨hm, hc, ht, hk⟩ := h
  cases hts : σ.ts i with
  | s0 =>
    cases hcell : getVal σ.cell with
    | some w =>
      obtain ⟨hcv, rfl⟩ := getVal_eq_some hc hcell
      simp only [stepOne, hts, hcell]
      refine ⟨mutex_update i _ hm (by rw [hts]; simp [holdsLock]), hc,
        tsOk_update i _ ht ⟨rfl, hcv⟩, ?_⟩
      dsimp only
      rw [hk]
      exact (cnt_cond_eq (or_congr Iff.rfl
        (exists_inS4_update σ.ts i (TState.done (some w)) rfl (by rw [hts]; rfl)))).symm
    | none =>
      simp only [stepOne, hts, hcell]
      refine ⟨mutex_update i _ hm (by rw [hts]; simp [holdsLock]), hc,
        tsOk_update i _ ht trivial, ?_⟩
      dsimp only
      rw [hk]
      exact (cnt_cond_eq (or_congr Iff.rfl
        (exists_inS4_update σ.ts i TState.s1 rfl (by rw [hts]; rfl)))).symm
  | s1 =>
    cases howner : σ.owner with
    | some k =>
      simp only [stepOne, hts, howner]
      exact ⟨hm, hc, ht, hk⟩
    | none =>
      simp only [stepOne, hts, howner]
      refine ⟨?_, hc, tsOk_update i _ ht trivial, ?_⟩
      · intro j
        dsimp only
        by_cases hji : j = i
        · subst hji
          rw [Function.update_same]
          simp [holdsLock]
        · rw [Function.update_noteq hji]
          constructor
          · intro hj
            have := (hm j).mp hj
            rw [howner] at this
            cases this
          · intro hj
            exact absurd (Option.some.inj hj).symm hji
      · dsimp only
        rw [hk]
        exact (cnt_cond_eq (or_congr Iff.rfl
          (exists_inS4_update σ.ts i TState.s2 rfl (by rw [hts]; rfl)))).symm
  | s2 =>
    cases hcell : getVal σ.cell with
    | some w =>
      obtain ⟨hcv, rfl⟩ := getVal_eq_some hc hcell
      simp only [stepOne, hts, hcell]
      refine ⟨mutex_update i _ hm (by rw [hts]; simp [holdsLock]), hc,
        tsOk_update i _ ht ⟨rfl, hcv⟩, ?_⟩
      dsimp only
      rw [hk]
      exact (cnt_cond_eq (or_congr Iff.rfl
        (exists_inS4_update σ.ts i (TState.srel (some w)) rfl (by rw [hts]; rfl)))).symm
    | none =>
      have hcn := getVal_eq_none hc hcell
      simp only [stepOne, hts, hcell]
      refine ⟨mutex_update i _ hm (by rw [hts]; simp [holdsLock]), hc,
        tsOk_update i _ ht hcn, ?_⟩
      dsimp only
      rw [hk]
      exact (cnt_cond_eq (or_congr Iff.rfl
        (exists_inS4_update σ.ts i TState.s3 rfl (by rw [hts]; rfl)))).symm
  | s3 =>
    have hcn : σ.cell = none := by
      have := ht i
      rw [hts] at this
      exact this
    have hnos4 : ¬ ∃ j, inS4 (σ.ts j) = true := by
      rintro ⟨j, hj⟩
      obtain ⟨w, hw⟩ := inS4_eq_true hj
      have hij : i = j := lock_unique hm (by rw [hts]; trivial) (by rw [hw]; trivial)
      rw [← hij, hts] at hw
      cases hw
    have hcnt0 : σ.cnt = 0 := by
      rw [hk, if_neg]
      rintro (hs | hs)
      · rw [hcn] at hs
        cases hs
      · exact hnos4 hs
    simp only [stepOne, hts]
    refine ⟨mutex_update i _ hm (by rw [hts]; simp [holdsLock]), hc,
      tsOk_update i _ ht ⟨hcn, rfl⟩, ?_⟩
    dsimp only
    have hcond : σ.cell.isSome = true ∨
        ∃ j, inS4 (Function.update σ.ts i (TState.s4v v) j) = true :=
      Or.inr ⟨i, by rw [Function.update_same]; rfl⟩
    rw [hcnt0, if_pos hcond]
  | s4v w =>
    have hcw : σ.cell = none ∧ w = v := by
      have := ht i
      rw [hts] at this
      exact this
    obtain ⟨hcn, rfl⟩ := hcw
    have howner : σ.owner = some i := (hm i).mp (by rw [hts]; trivial)
    simp only [stepOne, hts]
    refine ⟨mutex_update i _ hm (by rw [hts]; simp [holdsLock]), Or.inr rfl, ?_, ?_⟩
    · intro j
      dsimp only
      by_cases hji : j = i
      · subst hji
        rw [Function.update_same]
        exact ⟨rfl, rfl⟩
      · rw [Function.update_noteq hji]
        cases hjt : σ.ts j with
        | s0 => trivial
        | s1 => trivial
        | s2 =>
          exact absurd (lock_unique hm (by rw [hts]; trivial) (by rw [hjt]; trivial))
            (fun hij => hji hij.symm)
        | s3 =>
          exact absurd (lock_unique hm (by rw [hts]; trivial) (by rw [hjt]; trivial))
            (fun hij => hji hij.symm)
        | s4v u =>
          exact absurd (lock_unique hm (by rw [hts]; trivial) (by rw [hjt]; trivial))
            (fun hij => hji hij.symm)
        | s4n =>
          exact absurd (lock_unique hm (by rw [hts]; trivial) (by rw [hjt]; trivial))
            (fun hij => hji hij.symm)
        | srel r =>
          exact absurd (lock_unique hm (by rw [hts]; trivial) (by rw [hjt]; trivial))
            (fun hij => hji hij.symm)
        | done r =>
          have := ht j
          rw [hjt] at this
          rw [hcn] at this
          cases this.2
    · have hcnt1 : σ.cnt = 1 := by
        rw [hk, if_pos]
        exact Or.inr ⟨i, by rw [hts]; rfl⟩
      have hcond : (some (Cell.val w)).isSome = true ∨
          ∃ j, inS4 (Function.update σ.ts i (TState.srel (some w)) j) = true := Or.inl rfl
      dsimp only
      rw [hcnt1, if_pos hcond]
  | s4n =>
    have := ht i
    rw [hts] at this
    cases this
  | srel r =>
    have hsr : r = some v ∧ σ.cell = some (.val v) := by
      have := ht i
      rw [hts] at this
      exact this
    have howner : σ.owner = some i := (hm i).mp (by rw [hts]; trivial)
    simp only [stepOne, hts]
    refine ⟨?_, hc, tsOk_update i _ ht hsr, ?_⟩
    · intro j
      dsimp only
      by_cases hji : j = i
      · subst hji
        rw [Function.update_same]
        simp [holdsLock]
      · rw [Function.update_noteq hji]
        constructor
        · intro hj
          have := (hm j).mp hj
          rw [howner] at this
          exact absurd (Option.some.inj this) (fun hij => hji hij.symm)
        · intro hj
          cases hj
    · dsimp only
      rw [hk]
      exact (cnt_cond_eq (or_congr Iff.rfl
        (exists_inS4_update σ.ts i (TState.done r) rfl (by rw [hts]; rfl)))).symm
  | done r =>
    simp only [stepOne, hts]
    exact ⟨hm, hc, ht, hk⟩

/-- The initial state (missing key, free lock, no fetches) satisfies the
single-flight invariant. -/
theorem sfinv_init (v n : Nat) : SFInv v (initSys n) := by
  refine ⟨?_, Or.inl rfl, ?_, ?_⟩
  · intro i
    simp [initSys, holdsLock]
  · intro i
    trivial
  · simp [initSys, inS4]

/-- Any schedule preserves the single-flight invariant. -/
theorem sfinv_run {n : Nat} (v : Nat) (σ : Sys n) (sched : List (Fin n)) (h : SFInv v σ) :
    SFInv v (runSched (some v) σ sched) := by
  induction sched generalizing σ with
  | nil => exact h
  | cons i rest ih => exact ih _ (sfinv_step v σ i h)

/-- `isDone` characterization. -/
theorem isDone_eq_true {t : TState} (h : isDone t = true) : ∃ r, t = .done r := by
  cases t <;> first
    | exact ⟨_, rfl⟩
    | simp [isDone] at h

/-- In an invariant state where every thread has finished, the fetch ran
exactly once and every thread returned the fetched value. -/
theorem sfinv_final {n : Nat} (v : Nat) (σ : Sys n) (h : SFInv v σ) (hn : 0 < n)
    (hdone : ∀ i, isDone (σ.ts i) = true) :
    σ.cnt = 1 ∧ ∀ i, σ.ts i = TState.done (some v) := by
  obtain ⟨hm, hc, ht, hk⟩ := h
  have hdone' : ∀ i, σ.ts i = TState.done (some v) := by
    intro i
    obtain ⟨r, hr⟩ := isDone_eq_true (hdone i)
    have hok := ht i
    rw [hr] at hok
    rw [hr, hok.1]
  refine ⟨?_, hdone'⟩
  have hcell : σ.cell = some (.val v) := by
    have hok := ht ⟨0, hn⟩
    rw [hdone' ⟨0, hn⟩] at hok
    exact hok.2
  rw [hk, if_pos (Or.inl (by rw [hcell]; rfl))]

/-- Claim C3 (amended): single-flight for a value-returning fetch — for
any number `n > 0` of concurrent `get_or_set` callers on the same missing
key and ANY interleaving (schedule) after which all callers have
finished, the fetch callback has been invoked exactly once and every
caller returned the fetched value.  (The amendment restricts the claim to
a fetch that returns a value; the counterexample shows it fails when the
fetch returns "does not exist".) -/
theorem c3_single_flight {n : Nat} (v : Nat) (sched : List (Fin n)) (hn : 0 < n)
    (hdone : ∀ i, isDone ((runSched (some v) (initSys n) sched).ts i) = true) :
    (runSched (some v) (initSys n) sched).cnt = 1 ∧
    ∀ i, (runSched (some v) (initSys n) sched).ts i = TState.done (some v) :=
  sfinv_final v _ (sfinv_run v (initSys n) sched (sfinv_init v n)) hn hdone

/-- Witness for C3: two threads, fetch returns 5, a complete interleaving. -/
theorem c3_single_flight_witness :
    ((0 : Nat) < 2 ∧ ∀ i, isDone ((runSched (some 5) (initSys 2)
        ([0, 0, 0, 0, 0, 0, 1] : List (Fin 2))).ts i) = true) ∧
    ((runSched (some 5) (initSys 2) ([0, 0, 0, 0, 0, 0, 1] : List (Fin 2))).cnt = 1 ∧
      ∀ i, (runSched (some 5) (initSys 2) ([0, 0, 0, 0, 0, 0, 1] : List (Fin 2))).ts i
        = TState.done (some 5)) :=
  ⟨⟨by decide, by decide⟩, c3_single_flight 5 _ (by decide) (by decide)⟩

/-- Claim C3 (counterexample): when the fetch reports "does not exist"
(returns `None`), two concurrent callers on the same missing key invoke
the fetch TWICE in one miss episode — the first lock holder's tombstone
reads back as a miss in the second holder's double check — falsifying
"the fetch callback is invoked exactly once per miss episode" as stated;
all callers do still return `None`. -/
theorem c3_single_flight_counterexample :
    (∀ i, isDone ((runSched none (initSys 2)
        ([0, 0, 0, 0, 0, 0, 1, 1, 1, 1, 1, 1] : List (Fin 2))).ts i) = true) ∧
    (runSched none (initSys 2)
        ([0, 0, 0, 0, 0, 0, 1, 1, 1, 1, 1, 1] : List (Fin 2))).cnt = 2 ∧
    ¬ ((runSched none (initSys 2)
        ([0, 0, 0, 0, 0, 0, 1, 1, 1, 1, 1, 1] : List (Fin 2))).cnt = 1) :=
  ⟨by decide, by decide, by decide⟩

/-! ## Claim C8: bloom-filter sizing (`BloomFilter.__init__`)

The constructor computes `self.bit_size` and `self.hash_count` with
Python float arithmetic (`math.log`); the model below idealizes the
IEEE-754 doubles as exact reals (the discrepancies proved here are far
larger than any double rounding error).  Python's `int()` truncates
toward zero. -/

/-- Python `int()` on a real: truncation toward zero. -/
noncomputable def pyInt (x : ℝ) : ℤ := if x < 0 then -⌊-x⌋ else ⌊x⌋

/-- `self.bit_size = int(-capacity * math.log(error_rate) / (math.log(2) ** 2))`. -/
noncomputable def bloom_bit_size (capacity : ℕ) (error_rate : ℝ) : ℤ :=
  pyInt (-(capacity : ℝ) * Real.log error_rate / (Real.log 2) ^ 2)

/-- `self.hash_count = int(self.bit_size * math.log(2) / capacity)`, then
`if self.hash_count < 1: self.hash_count = 1`. -/
noncomputable def bloom_hash_count (capacity : ℕ) (error_rate : ℝ) : ℤ :=
  let k := pyInt ((bloom_bit_size capacity error_rate : ℝ) * Real.log 2 / (capacity : ℝ))
  if k < 1 then 1 else k

/-- The spec's sizing formula for `m` (written from the spec's words, for
comparison): `m = ceil(-n·ln(p) / (ln 2)²)`. -/
noncomputable def spec_bit_size (n : ℕ) (p : ℝ) : ℤ :=
  ⌈-(n : ℝ) * Real.log p / (Real.log 2) ^ 2⌉

/-- The spec's sizing formula for `k` (written from the spec's words, for
comparison): `k = max(1, round(m·ln2 / n))`. -/
noncomputable def spec_hash_count (n : ℕ) (p : ℝ) : ℤ :=
  max 1 (round ((spec_bit_size n p : ℝ) * Real.log 2 / (n : ℝ)))

/-- Numeric bounds on `ln 2` needed below. -/
theorem log_two_bounds : (1 : ℝ) / 2 < Real.log 2 ∧ Real.log 2 < 1 := by
  constructor
  · have h := @Real.log_lt_sub_one_of_pos ((1 : ℝ) / 2) (by norm_num) (by norm_num)
    rw [show ((1 : ℝ) / 2) = (2 : ℝ)⁻¹ by norm_num, Real.log_inv] at h
    linarith
  · have h := @Real.log_lt_sub_one_of_pos (2 : ℝ) (by norm_num) (by norm_num)
    linarith

/-- Claim C8 (counterexample): at capacity `n = 1` and error rate
`p = 1/2` the source computes `bit_size = int(1/ln 2) = 1`, while the
claimed formula gives `ceil(1/ln 2) = 2` (since `1 < 1/ln 2 < 2`): the
source truncates where the claim requires the ceiling, so the claimed
invariant is false. -/
theorem c8_sizing_counterexample :
    bloom_bit_size 1 (1 / 2) = 1 ∧ spec_bit_size 1 (1 / 2) = 2 ∧
    bloom_bit_size 1 (1 / 2) ≠ spec_bit_size 1 (1 / 2) := by
  obtain ⟨hl, hu⟩ := log_two_bounds
  have hlogpos : (0 : ℝ) < Real.log 2 := by linarith
  have hx : -((1 : ℕ) : ℝ) * Real.log (1 / 2) / (Real.log 2) ^ 2 = (Real.log 2)⁻¹ := by
    rw [one_div, Real.log_inv]
    field_simp
    ring
  have h1 : (1 : ℝ) < (Real.log 2)⁻¹ := (one_lt_inv₀ hlogpos).mpr hu
  have h2 : (Real.log 2)⁻¹ < 2 := by
    have h3 := inv_strictAnti₀ (by norm_num : (0 : ℝ) < 1 / 2) hl
    norm_num at h3
    exact h3
  have hfloor : bloom_bit_size 1 (1 / 2) = 1 := by
    rw [bloom_bit_size, pyInt, hx, if_neg (by linarith)]
    rw [Int.floor_eq_iff]
    constructor
    · push_cast
      linarith
    · push_cast
      linarith
  have hceil : spec_bit_size 1 (1 / 2) = 2 := by
    rw [spec_bit_size, hx, Int.ceil_eq_iff]
    constructor
    · push_cast
      linarith
    · push_cast
      linarith
  exact ⟨hfloor, hceil, by rw [hfloor, hceil]; decide⟩

/-- Claim C8 (amended): for every capacity `n` and error rate `p ∈ (0,1)`
the constructed filter satisfies `m = floor(-n·ln(p)/(ln 2)²)` (Python
`int()` truncation — the floor, not the spec's ceiling) and
`k = max(1, floor(m·ln 2/n))` (again the floor, not the spec's rounding;
the source's `if hash_count < 1` guard is exactly the `max` with 1). -/
theorem c8_sizing_amended (n : ℕ) (p : ℝ) (hp0 : 0 < p) (hp1 : p < 1) :
    bloom_bit_size n p = ⌊-(n : ℝ) * Real.log p / (Real.log 2) ^ 2⌋ ∧
    bloom_hash_count n p = max 1 ⌊(bloom_bit_size n p : ℝ) * Real.log 2 / (n : ℝ)⌋ := by
  have hlogp : Real.log p < 0 := Real.log_neg hp0 hp1
  have hlog2 : (0 : ℝ) < Real.log 2 := by
    have := log_two_bounds
    linarith [this.1]
  have hxnn : 0 ≤ -(n : ℝ) * Real.log p / (Real.log 2) ^ 2 := by
    apply div_nonneg
    · have : 0 ≤ -(Real.log p) := by linarith
      have hn : (0 : ℝ) ≤ (n : ℝ) := Nat.cast_nonneg n
      nlinarith
    · positivity
  have hm : bloom_bit_size n p = ⌊-(n : ℝ) * Real.log p / (Real.log 2) ^ 2⌋ := by
    rw [bloom_bit_size, pyInt, if_neg (not_lt.mpr hxnn)]
  refine ⟨hm, ?_⟩
  have hmnn : (0 : ℤ) ≤ bloom_bit_size n p := by
    rw [hm]
    exact Int.floor_nonneg.mpr hxnn
  have hknn : 0 ≤ (bloom_bit_size n p : ℝ) * Real.log 2 / (n : ℝ) := by
    apply div_nonneg
    · apply mul_nonneg
      · exact_mod_cast hmnn
      · linarith
    · exact Nat.cast_nonneg n
  rw [bloom_hash_count]
  simp only [pyInt, if_neg (not_lt.mpr hknn)]
  rcases lt_or_le (⌊(bloom_bit_size n p : ℝ) * Real.log 2 / (n : ℝ)⌋) 1 with h | h
  · rw [if_pos h]
    exact (max_eq_left (le_of_lt h)).symm
  · rw [if_neg (not_lt.mpr h), max_eq_right h]

/-- Witness for the amended C8 theorem at the default configuration
`capacity = 10000`, `error_rate = 0.01`. -/
theorem c8_sizing_amended_witness :
    ((0 : ℝ) < 1 / 100 ∧ (1 : ℝ) / 100 < 1) ∧
    (bloom_bit_size 10000 (1 / 100)
        = ⌊-((10000 : ℕ) : ℝ) * Real.log (1 / 100) / (Real.log 2) ^ 2⌋ ∧
      bloom_hash_count 10000 (1 / 100)
        = max 1 ⌊(bloom_bit_size 10000 (1 / 100) : ℝ) * Real.log 2 / ((10000 : ℕ) : ℝ)⌋) :=
  ⟨⟨by norm_num, by norm_num⟩, c8_sizing_amended 10000 (1 / 100) (by norm_num) (by norm_num)⟩
